import Mathlib

/-!
Verification of the algebra_kit repository's Euclidean-algorithm core and
modular-arithmetic types against its specification.

Conventions of the embedding:
- Rust `i64` values are embedded as `Int`.  Rust's `/` and `%` on signed
  integers truncate toward zero, which is exactly `Int.tdiv` / `Int.tmod`;
  Rust's `rem_euclid` is exactly `Int.emod` (result in `[0, |n|)`).
- `ZM<Q>` and `AdditiveGroupZM<N>` elements are represented by their stored
  `val : i64`, embedded as `Int`; each Rust operation becomes a function on
  those stored values.
- Where a claim is specifically about the finite width of `i64`
  (overflow / panics), a separate model makes the width explicit:
  checked operations return `Option`, with `none` for a panic.
-/

namespace AlgebraKit

/-- Absolute value of a truncating remainder: `|a tmod b| = |a| % |b|`.
This is the basic fact connecting Rust's `%` on `i64` to natural-number
remainders. -/
theorem natAbs_tmod (a b : Int) : (a.tmod b).natAbs = a.natAbs % b.natAbs := by
  cases a with
  | ofNat m =>
    cases b with
    | ofNat n => rfl
    | negSucc n => rfl
  | negSucc m =>
    cases b with
    | ofNat n =>
      show (-(Int.ofNat ((m + 1) % n))).natAbs = (m + 1) % n
      rw [Int.natAbs_neg]
      rfl
    | negSucc n =>
      show (-(Int.ofNat ((m + 1) % (n + 1)))).natAbs = (m + 1) % (n + 1)
      rw [Int.natAbs_neg]
      rfl

/-- Truncating remainder by a nonzero divisor strictly shrinks the absolute
value, the termination measure of the Euclidean algorithms. -/
theorem natAbs_tmod_lt (a : Int) {b : Int} (hb : b ≠ 0) :
    (a.tmod b).natAbs < b.natAbs := by
  rw [natAbs_tmod]
  exact Nat.mod_lt _ (Int.natAbs_pos.mpr hb)

/-- Extended Euclidean algorithm, from `ext_gcd` in `src/algebra.rs`,
instantiated at the `EuclideanDomain` impl for `i64`
(`quotient_and_remainder` is truncating division and remainder).
Returns `(g, x, y)`. -/
def extGcd (a b : Int) : Int × Int × Int :=
  if a = 0 then (b, 0, 1)
  else
    let q := b.tdiv a
    let p := extGcd (b.tmod a) a
    (p.1, p.2.2 - q * p.2.1, p.2.1)
termination_by a.natAbs
decreasing_by
  exact natAbs_tmod_lt b (by assumption)

/-- Euclidean GCD, from `gcd` in `src/algebra.rs`, instantiated at `i64`
(`euc_size` is the absolute value, `is_zero` is comparison with 0). -/
def gcdAlg (a b : Int) : Int :=
  if a = 0 then b
  else if b = 0 then a
  else if a.natAbs < b.natAbs then gcdAlg b a
  else gcdAlg b (a.tmod b)
termination_by 2 * b.natAbs + (if a.natAbs < b.natAbs then 1 else 0)
decreasing_by
  · simp only [if_neg (Nat.not_lt.mpr (Nat.le_of_lt (by assumption)))]
    omega
  · have h := natAbs_tmod_lt a (show b ≠ 0 by assumption)
    simp only [if_neg (Nat.not_lt.mpr (Nat.le_of_lt h))]
    omega

/-- Unfolding equation for `extGcd` in the zero base case. -/
theorem extGcd_zero (b : Int) : extGcd 0 b = (b, 0, 1) := by
  rw [extGcd]
  simp

/-- Unfolding equation for `extGcd` in the recursive case. -/
theorem extGcd_rec {a : Int} (b : Int) (ha : a ≠ 0) :
    extGcd a b = ((extGcd (b.tmod a) a).1,
      (extGcd (b.tmod a) a).2.2 - b.tdiv a * (extGcd (b.tmod a) a).2.1,
      (extGcd (b.tmod a) a).2.1) := by
  rw [extGcd]
  simp [ha]

/--`mod_inv` from `src/std_impls.rs`: the second component of `ext_gcd`. -/
def modInv (x m : Int) : Int := (extGcd x m).2.1

/-- Unfolding equation for `gcdAlg`. -/
theorem gcdAlg_def (a b : Int) :
    gcdAlg a b =
      if a = 0 then b
      else if b = 0 then a
      else if a.natAbs < b.natAbs then gcdAlg b a
      else gcdAlg b (a.tmod b) := by
  rw [gcdAlg]

/-- Bézout identity of the implemented extended GCD: for all integer
inputs, the returned coefficients satisfy `a*x + b*y = g`. -/
theorem extGcd_bezout (a b : Int) :
    a * (extGcd a b).2.1 + b * (extGcd a b).2.2 = (extGcd a b).1 := by
  induction a, b using extGcd.induct with
  | case1 b =>
    rw [extGcd_zero]
    ring
  | case2 a b ha ih =>
    rw [extGcd_rec b ha]
    have key := Int.tdiv_add_tmod b a
    show a * ((extGcd (b.tmod a) a).2.2 - b.tdiv a * (extGcd (b.tmod a) a).2.1) +
        b * (extGcd (b.tmod a) a).2.1 = (extGcd (b.tmod a) a).1
    linear_combination ih - (extGcd (b.tmod a) a).2.1 * key

/-- First component of the implemented extended GCD: up to sign it is the
mathematical greatest common divisor of the inputs. -/
theorem extGcd_fst_natAbs (a b : Int) :
    (extGcd a b).1.natAbs = Int.gcd a b := by
  induction a, b using extGcd.induct with
  | case1 b =>
    rw [extGcd_zero]
    simp [Int.gcd]
  | case2 a b ha ih =>
    rw [extGcd_rec b ha]
    show (extGcd (b.tmod a) a).1.natAbs = Int.gcd a b
    rw [ih]
    unfold Int.gcd
    rw [natAbs_tmod]
    exact (Nat.gcd_rec a.natAbs b.natAbs).symm

/-- On nonnegative inputs the implemented extended GCD returns a
nonnegative first component. -/
theorem extGcd_fst_nonneg (a b : Int) :
    0 ≤ a → 0 ≤ b → 0 ≤ (extGcd a b).1 := by
  induction a, b using extGcd.induct with
  | case1 b =>
    intro _ hb
    rw [extGcd_zero]
    exact hb
  | case2 a b ha ih =>
    intro ha0 hb0
    rw [extGcd_rec b ha]
    show 0 ≤ (extGcd (b.tmod a) a).1
    exact ih (Int.tmod_nonneg a hb0) ha0

/-- The implemented recursive GCD also computes the mathematical greatest
common divisor up to sign. -/
theorem gcdAlg_natAbs (a b : Int) : (gcdAlg a b).natAbs = Int.gcd a b := by
  induction a, b using gcdAlg.induct with
  | case1 b =>
    rw [gcdAlg_def]
    simp [Int.gcd]
  | case2 a hb =>
    rw [gcdAlg_def]
    simp_all [Int.gcd]
  | case3 a b ha hb hlt ih =>
    rw [gcdAlg_def, if_neg ha, if_neg hb, if_pos hlt, ih]
    unfold Int.gcd
    exact Nat.gcd_comm _ _
  | case4 a b ha hb hlt ih =>
    rw [gcdAlg_def, if_neg ha, if_neg hb, if_neg hlt, ih]
    unfold Int.gcd
    rw [natAbs_tmod]
    rw [Nat.gcd_comm b.natAbs (a.natAbs % b.natAbs), ← Nat.gcd_rec, Nat.gcd_comm]

/-- Construction of a `ZM<Q>` element from an `i64`
(`impl From<i64> for ZM<Q>`): reduce with `rem_euclid`. -/
def zmFromInt (Q x : Int) : Int := x % Q

/-- Multiplication on `ZM<Q>` (`impl Mul for ZM<Q>`): both operands are
reduced with `rem_euclid`, multiplied, and the product is reduced with the
truncating `%`. -/
def zmMul (Q a b : Int) : Int := (a % Q * (b % Q)).tmod Q

/-- Field inverse on `ZM<Q>` (`impl Field for ZM<Q>`):
`mod_inv(self.val, Q).into()`. -/
def zmInverse (Q a : Int) : Int := zmFromInt Q (modInv a Q)

/-- Division on `ZM<Q>` (`impl Div for ZM<Q>`):
`self * mod_inv(rhs.val, Q).into()`. -/
def zmDiv (Q a b : Int) : Int := zmMul Q a (zmFromInt Q (modInv b Q))

/-- Iterated-multiplication loop of `ZM::power`: `k` executions of
`power *= *self` starting from `ZM::one()`, whose stored value is `1`. -/
def zmPowAux (Q a : Int) : Nat → Int
  | 0 => 1
  | k + 1 => zmMul Q (zmPowAux Q a k) a

/-- Power on `ZM<Q>` (`Ring::power` in `impl Ring for ZM<Q>`): the Rust
loop `for _ in 1..=n` runs `n` times when `n ≥ 1` and zero times otherwise,
which is `n.toNat` iterations. -/
def zmPower (Q a n : Int) : Int := zmPowAux Q a n.toNat

/-- Construction of an `AdditiveGroupZM<N>` element from an `i64`
(`AdditiveGroupZM::from_int`): reduce with `rem_euclid`. -/
def agFromInt (N x : Int) : Int := x % N

/-- Addition on `AdditiveGroupZM<N>` (`impl Add`):
`(self.val + rhs.val).rem_euclid(N)`. -/
def agAdd (N a b : Int) : Int := (a + b) % N

/-- Compound assignment `+=` on `AdditiveGroupZM<N>` (`impl AddAssign`):
the source executes `self.val -= rhs.val` and then reduces with
`rem_euclid`, so the stored result is the reduced difference. -/
def agAddAssign (N a b : Int) : Int := (a - b) % N

/-- Subtraction on `AdditiveGroupZM<N>` (`impl Sub`):
`(self.val - rhs.val).rem_euclid(N)`. -/
def agSub (N a b : Int) : Int := (a - b) % N

/-- Multiplication on `AdditiveGroupZM<N>` (`impl Mul`): literally
`self + rhs`. -/
def agMul (N a b : Int) : Int := agAdd N a b

/-- Division on `AdditiveGroupZM<N>` (`impl Div`): the raw difference
`self.val - rhs.val`, with no reduction. -/
def agDiv (N a b : Int) : Int := a - b

/-- Equality on `AdditiveGroupZM<N>` (`impl PartialEq`): compare the two
stored values after reducing each with `rem_euclid`. -/
def agEqv (N a b : Int) : Prop := a % N = b % N

/-- Smallest `i64` value, `-2^63`. -/
def i64Min : Int := -9223372036854775808

/-- Largest `i64` value, `2^63 - 1`. -/
def i64Max : Int := 9223372036854775807

/-- Checked `i64` multiplication: the mathematical product when it fits in
the `i64` range, `none` when it overflows (a panic in debug builds, a
wraparound in release builds). -/
def checkedMulI64 (a b : Int) : Option Int :=
  if i64Min ≤ a * b ∧ a * b ≤ i64Max then some (a * b) else none

/-- Width-aware model of `impl Mul for ZM<Q>`: reduce both operands with
`rem_euclid`, multiply them as `i64` values, and reduce the product with
the truncating `%`. -/
def zmMulI64 (Q a b : Int) : Option Int :=
  (checkedMulI64 (a % Q) (b % Q)).map (fun p => p.tmod Q)

/-- Width-aware model of `impl Div for ZM<Q>`: the multiplication of
`self` by the reduced inverse `mod_inv(rhs.val, Q).into()` is performed
in `i64`. -/
def zmDivI64 (Q a b : Int) : Option Int :=
  zmMulI64 Q a (zmFromInt Q (modInv b Q))

/-- Width-aware model of the `ZM::power` loop: each `power *= *self`
step multiplies in `i64`. -/
def zmPowAuxI64 (Q a : Int) : Nat → Option Int
  | 0 => some 1
  | k + 1 =>
    match zmPowAuxI64 Q a k with
    | some acc => zmMulI64 Q acc a
    | none => none

/-- Width-aware model of `ZM::power`: `n.toNat` iterations of the loop
body. -/
def zmPowerI64 (Q a n : Int) : Option Int := zmPowAuxI64 Q a n.toNat

/-- Two's-complement wraparound of a 64-bit signed arithmetic result: the
value a release build stores when the operation overflows. -/
def wrap64 (x : Int) : Int :=
  (x + 9223372036854775808) % 18446744073709551616 - 9223372036854775808

/-- Model of `euc_size` at the `i64` instance
(`self.abs().try_into().unwrap()`): the absolute value, failing at
`i64::MIN`, whose absolute value does not fit back into `i64`. -/
def eucSizeI64 (x : Int) : Option Nat :=
  if x = i64Min then none else some x.natAbs

/-- Model of `quotient_and_remainder` at the `i64` instance: truncating
division and remainder, failing on division by zero and on the
overflowing case `i64::MIN / -1`. -/
def qrI64 (a b : Int) : Option (Int × Int) :=
  if b = 0 ∨ (a = i64Min ∧ b = -1) then none else some (a.tdiv b, a.tmod b)

/-- Fuelled, panic-aware model of `gcd` at the `i64` instance. The outer
`Option` is `none` when the fuel runs out; the inner `Option` is `none`
when the Rust code panics. -/
def gcdI64F : Nat → Int → Int → Option (Option Int)
  | 0, _, _ => none
  | fuel + 1, a, b =>
    if a = 0 then some (some b)
    else if b = 0 then some (some a)
    else
      match eucSizeI64 a, eucSizeI64 b with
      | some sa, some sb =>
        if sa < sb then gcdI64F fuel b a
        else
          match qrI64 a b with
          | some qr => gcdI64F fuel b qr.2
          | none => some none
      | _, _ => some none

/-- Fuelled model of `ext_gcd` over the unbounded integers: `none` when
the fuel runs out. -/
def extGcdF : Nat → Int → Int → Option (Int × Int × Int)
  | 0, _, _ => none
  | fuel + 1, a, b =>
    if a = 0 then some (b, 0, 1)
    else
      match extGcdF fuel (b.tmod a) a with
      | some p => some (p.1, p.2.2 - b.tdiv a * p.2.1, p.2.1)
      | none => none

/-- Unfolding equation for `gcdI64F` at positive fuel. -/
theorem gcdI64F_succ (fuel : Nat) (a b : Int) :
    gcdI64F (fuel + 1) a b =
      if a = 0 then some (some b)
      else if b = 0 then some (some a)
      else
        match eucSizeI64 a, eucSizeI64 b with
        | some sa, some sb =>
          if sa < sb then gcdI64F fuel b a
          else
            match qrI64 a b with
            | some qr => gcdI64F fuel b qr.2
            | none => some none
        | _, _ => some none := rfl

/-- Convergence of the fuelled `i64` model of `gcd`: with fuel exceeding
twice the Euclidean size of the second operand, and both operands strictly
inside the `i64` range (excluding `i64::MIN`), the model neither runs out
of fuel nor panics, and returns the value of the recursive algorithm. -/
theorem gcdI64F_converges (fuel : Nat) :
    ∀ a b : Int,
      2 * b.natAbs + (if a.natAbs < b.natAbs then 1 else 0) < fuel →
      a.natAbs < 9223372036854775808 → b.natAbs < 9223372036854775808 →
      gcdI64F fuel a b = some (some (gcdAlg a b)) := by
  induction fuel with
  | zero =>
    intro a b h _ _
    exact absurd h (Nat.not_lt_zero _)
  | succ fuel ih =>
    intro a b hfuel ha hb
    rw [gcdI64F_succ]
    by_cases ha0 : a = 0
    · rw [if_pos ha0, gcdAlg_def, if_pos ha0]
    rw [if_neg ha0]
    by_cases hb0 : b = 0
    · rw [if_pos hb0, gcdAlg_def, if_neg ha0, if_pos hb0]
    rw [if_neg hb0]
    have hamin : ¬(a = i64Min) := by unfold i64Min; omega
    have hbmin : ¬(b = i64Min) := by unfold i64Min; omega
    rw [eucSizeI64, if_neg hamin, eucSizeI64, if_neg hbmin]
    show (if a.natAbs < b.natAbs then gcdI64F fuel b a
        else match qrI64 a b with
             | some qr => gcdI64F fuel b qr.2
             | none => some none) = some (some (gcdAlg a b))
    by_cases hlt : a.natAbs < b.natAbs
    · rw [if_pos hlt]
      have hif1 : (if a.natAbs < b.natAbs then 1 else 0) = 1 := if_pos hlt
      have hif0 : (if b.natAbs < a.natAbs then 1 else 0) = 0 := if_neg (by omega)
      rw [hif1] at hfuel
      rw [ih b a (by rw [hif0]; omega) hb ha]
      conv_rhs => rw [gcdAlg_def, if_neg ha0, if_neg hb0, if_pos hlt]
    · rw [if_neg hlt]
      have hif0 : (if a.natAbs < b.natAbs then 1 else 0) = 0 := if_neg hlt
      rw [hif0] at hfuel
      have hqr : qrI64 a b = some (a.tdiv b, a.tmod b) := by
        rw [qrI64, if_neg]
        push_neg
        exact ⟨hb0, fun h => absurd h hamin⟩
      rw [hqr]
      have htm := natAbs_tmod_lt a hb0
      have hif2 : (if b.natAbs < (a.tmod b).natAbs then 1 else 0) = 0 :=
        if_neg (by omega)
      show gcdI64F fuel b (a.tmod b) = some (some (gcdAlg a b))
      rw [ih b (a.tmod b) (by rw [hif2]; omega) hb (by omega)]
      conv_rhs => rw [gcdAlg_def, if_neg ha0, if_neg hb0, if_neg hlt]

/-- Convergence of the fuelled model of `ext_gcd`: fuel exceeding the
Euclidean size of the first operand suffices, because that size strictly
decreases on each recursive call. -/
theorem extGcdF_converges (fuel : Nat) :
    ∀ a b : Int, a.natAbs < fuel → extGcdF fuel a b = some (extGcd a b) := by
  induction fuel with
  | zero =>
    intro a b h
    exact absurd h (Nat.not_lt_zero _)
  | succ fuel ih =>
    intro a b ha
    by_cases h0 : a = 0
    · subst h0
      show (if (0 : Int) = 0 then some (b, 0, 1) else _) = _
      rw [if_pos rfl, extGcd_zero]
    · have htm := natAbs_tmod_lt b h0
      have hrec : extGcdF fuel (b.tmod a) a = some (extGcd (b.tmod a) a) :=
        ih _ _ (by omega)
      show (if a = 0 then some (b, 0, 1)
          else match extGcdF fuel (b.tmod a) a with
               | some p => some (p.1, p.2.2 - b.tdiv a * p.2.1, p.2.1)
               | none => none) = some (extGcd a b)
      rw [if_neg h0, hrec, extGcd_rec b h0]

/-- Evaluation of the extended GCD at the concrete input `(4, 13)`. -/
theorem extGcd_four_thirteen : extGcd 4 13 = (1, -3, 1) := by
  have h0 : extGcd 0 1 = (1, 0, 1) := extGcd_zero 1
  have h1 : extGcd 1 4 = (1, 1, 0) := by
    rw [extGcd_rec 4 (by decide)]
    have ht : ((4 : Int).tmod 1) = 0 := by decide
    rw [ht, h0]
    norm_num
  rw [extGcd_rec 13 (by decide)]
  have ht : ((13 : Int).tmod 4) = 1 := by decide
  have hd : ((13 : Int).tdiv 4) = 3 := by decide
  rw [ht, hd, h1]
  norm_num

/-- Canonical-residue form of the iterated-multiplication loop of
`ZM::power`: starting from the stored value `1`, `k` multiplication steps
compute the canonical residue of `a ^ k`, provided the base is a canonical
residue and the modulus exceeds `1`. -/
theorem zmPowAux_eq (Q a : Int) (hQ : 1 < Q) (ha0 : 0 ≤ a) (ha : a < Q)
    (k : Nat) : zmPowAux Q a k = a ^ k % Q := by
  induction k with
  | zero =>
    show (1 : Int) = a ^ 0 % Q
    rw [pow_zero]
    exact (Int.emod_eq_of_lt (by norm_num) hQ).symm
  | succ k ih =>
    show zmMul Q (zmPowAux Q a k) a = a ^ (k + 1) % Q
    rw [ih, zmMul, Int.emod_emod, Int.emod_eq_of_lt ha0 ha]
    have hprod : 0 ≤ a ^ k % Q * a :=
      mul_nonneg (Int.emod_nonneg _ (by omega)) ha0
    rw [Int.tmod_eq_emod hprod (by omega), pow_succ]
    conv_lhs => rw [Int.mul_emod]
    conv_rhs => rw [Int.mul_emod]
    rw [Int.emod_emod]

/-- When `(Q-1)^2` fits in `i64`, the unwidened multiplication of
`ZM<Q>` cannot overflow: both reduced operands lie in `[0, Q)`, so their
product lies in `[0, (Q-1)^2]`, and the width-aware model agrees with the
exact one. -/
theorem zmMulI64_eq_exact (Q a b : Int) (hQ : 0 < Q)
    (hw : (Q - 1) * (Q - 1) ≤ i64Max) :
    zmMulI64 Q a b = some (zmMul Q a b) := by
  have h1 : 0 ≤ a % Q := Int.emod_nonneg a (by omega)
  have h2 : a % Q < Q := Int.emod_lt_of_pos a hQ
  have h3 : 0 ≤ b % Q := Int.emod_nonneg b (by omega)
  have h4 : b % Q < Q := Int.emod_lt_of_pos b hQ
  have hle : a % Q * (b % Q) ≤ (Q - 1) * (Q - 1) :=
    mul_le_mul (by omega) (by omega) h3 (by omega)
  have hnn : 0 ≤ a % Q * (b % Q) := mul_nonneg h1 h3
  rw [zmMulI64, checkedMulI64, if_pos]
  · rfl
  · exact ⟨le_trans (by norm_num [i64Min]) hnn, le_trans hle hw⟩

/-- Under the same width condition the whole power loop is exact: no
iteration of `power *= *self` can overflow. -/
theorem zmPowAuxI64_eq_exact (Q a : Int) (hQ : 0 < Q)
    (hw : (Q - 1) * (Q - 1) ≤ i64Max) (k : Nat) :
    zmPowAuxI64 Q a k = some (zmPowAux Q a k) := by
  induction k with
  | zero => rfl
  | succ k ih =>
    show (match zmPowAuxI64 Q a k with
        | some acc => zmMulI64 Q acc a
        | none => none) = some (zmPowAux Q a (k + 1))
    rw [ih]
    show zmMulI64 Q (zmPowAux Q a k) a = some (zmPowAux Q a (k + 1))
    rw [zmMulI64_eq_exact Q (zmPowAux Q a k) a hQ hw]
    rfl

/-- C1 (corrected, counterexample): at the input `(2, -2)` the extended
GCD returns first component `2`, while `gcd(2, -2)` evaluates to `-2`, so
the claimed identity `g == gcd(a, b)` fails there. -/
theorem claim1_counterexample :
    (extGcd 2 (-2)).1 = 2 ∧ gcdAlg 2 (-2) = -2 ∧
      (extGcd 2 (-2)).1 ≠ gcdAlg 2 (-2) := by
  have h1 : (extGcd 2 (-2)).1 = 2 := by
    rw [extGcd_rec (-2) (by decide)]
    have ht : ((-2 : Int).tmod 2) = 0 := by decide
    rw [ht, extGcd_zero]
  have h2 : gcdAlg 2 (-2) = -2 := by
    have ht : ((2 : Int).tmod (-2)) = 0 := by decide
    rw [gcdAlg_def, if_neg (by decide : ¬(2 : Int) = 0),
      if_neg (by decide : ¬(-2 : Int) = 0),
      if_neg (by decide : ¬(2 : Int).natAbs < (-2 : Int).natAbs), ht,
      gcdAlg_def, if_neg (by decide : ¬(-2 : Int) = 0), if_pos rfl]
  exact ⟨h1, h2, by rw [h1, h2]; decide⟩

/-- C1 (amended): for every pair of integer inputs, `ext_gcd(a, b)`
returns `(g, x, y)` with `a*x + b*y = g`, and `g` agrees with `gcd(a, b)`
up to sign: both have absolute value equal to the mathematical greatest
common divisor of `a` and `b`. -/
theorem claim1_ext_gcd_amended (a b : Int) :
    (extGcd a b).1.natAbs = (gcdAlg a b).natAbs ∧
    (extGcd a b).1.natAbs = Int.gcd a b ∧
    a * (extGcd a b).2.1 + b * (extGcd a b).2.2 = (extGcd a b).1 := by
  refine ⟨?_, extGcd_fst_natAbs a b, extGcd_bezout a b⟩
  rw [extGcd_fst_natAbs, gcdAlg_natAbs]

/-- C2 (code bug): dividing any `ZM<Q>` element by the zero residue, and
calling `inverse()` on the zero residue, both return the zero residue
instead of failing: `mod_inv(0, Q)` is the second component of
`ext_gcd(0, Q) = (Q, 0, 1)`, namely `0`, and no error path exists in the
code. -/
theorem claim2_zero_division_returns_zero (Q a : Int) :
    zmInverse Q 0 = 0 ∧ zmDiv Q a 0 = 0 := by
  have hm : modInv 0 Q = 0 := by rw [modInv, extGcd_zero]
  constructor
  · rw [zmInverse, hm, zmFromInt]
    exact Int.zero_emod Q
  · rw [zmDiv, hm, zmFromInt, Int.zero_emod, zmMul, Int.zero_emod, mul_zero,
      Int.zero_tmod]

/-- C3 (code bug): division on `AdditiveGroupZM<5>` of the canonical
residue `1` by the canonical residue `3` stores the raw difference `-2`,
which lies outside `[0, 5)`, violating the canonical-residue invariant. -/
theorem claim3_div_breaks_invariant :
    agDiv 5 (agFromInt 5 1) (agFromInt 5 3) = -2 ∧
      agDiv 5 (agFromInt 5 1) (agFromInt 5 3) < 0 := by
  constructor <;> decide

/-- C4 (corrected, counterexample): `mod_inv(4, 13)` returns the raw
Bézout coefficient `-3`, not `10`. -/
theorem claim4_counterexample : modInv 4 13 ≠ 10 := by
  rw [modInv, extGcd_four_thirteen]
  decide

/-- C4 (amended): `mod_inv(4, 13)` returns `-3`, which is congruent to
`10` modulo `13`; reduced into `ZM<13>` it becomes `10`, and multiplying
`ZM<13>{4}` by that reduced inverse yields `one()`. -/
theorem claim4_mod_inv_amended :
    modInv 4 13 = -3 ∧ zmFromInt 13 (modInv 4 13) = 10 ∧
      zmMul 13 4 (zmFromInt 13 (modInv 4 13)) = 1 := by
  have hm : modInv 4 13 = -3 := by rw [modInv, extGcd_four_thirteen]
  refine ⟨hm, ?_, ?_⟩ <;> rw [hm] <;> decide

/-- Exact-arithmetic core of the inverse property: for a prime modulus
and any nonzero canonical residue `a`, the reduced Bézout coefficient is
a true inverse, so when the multiplications are computed exactly (no
overflow), `a * a.inverse()` and `a / a` both yield the stored value `1`.
The width condition under which the `i64` code really is exact is added
by the claim theorem built on top of this. -/
theorem zmPrimeInverseExact (p : Nat) (a : Int) (hp : Nat.Prime p)
    (ha1 : 1 ≤ a) (ha : a < (p : Int)) :
    zmMul (p : Int) a (zmInverse (p : Int) a) = 1 ∧
      zmDiv (p : Int) a a = 1 := by
  have h2 : (2 : Nat) ≤ p := hp.two_le
  have hgcd : Int.gcd a (p : Int) = 1 := by
    have hna : a.natAbs < p := by omega
    have hna0 : 0 < a.natAbs := by omega
    have hcop : Nat.Coprime p a.natAbs :=
      (Nat.Prime.coprime_iff_not_dvd hp).mpr (Nat.not_dvd_of_pos_of_lt hna0 hna)
    unfold Int.gcd
    rw [Int.natAbs_ofNat]
    exact hcop.symm
  have hg1 : (extGcd a (p : Int)).1 = 1 := by
    have hnn := extGcd_fst_nonneg a (p : Int) (by omega) (by omega)
    have habs := extGcd_fst_natAbs a (p : Int)
    rw [hgcd] at habs
    omega
  have hbez := extGcd_bezout a (p : Int)
  rw [hg1] at hbez
  have hmain : zmMul (p : Int) a (zmInverse (p : Int) a) = 1 := by
    rw [zmInverse, zmFromInt, zmMul, Int.emod_emod,
      Int.emod_eq_of_lt (by omega) ha]
    have hprod : 0 ≤ a * (modInv a (p : Int) % (p : Int)) :=
      mul_nonneg (by omega) (Int.emod_nonneg _ (by omega))
    rw [Int.tmod_eq_emod hprod (by omega)]
    conv_lhs => rw [Int.mul_emod, Int.emod_emod, ← Int.mul_emod]
    have hax : a * modInv a (p : Int) = 1 + (p : Int) * (-(extGcd a (p : Int)).2.2) := by
      rw [modInv]
      linear_combination hbez
    rw [hax, Int.add_mul_emod_self_left]
    exact Int.emod_eq_of_lt (by norm_num) (by omega)
  exact ⟨hmain, hmain⟩

/-- Primality of `3221225473 = 3 * 2^30 + 1`, by the Lucas primality
criterion at the primitive root `5`, with the needed powers computed by
repeated squaring modulo `3221225473`. -/
theorem prime_3221225473 : Nat.Prime 3221225473 := by
  have e1 : (5 : ZMod 3221225473) ^ 2 = 25 := by decide
  have e2 : (5 : ZMod 3221225473) ^ 4 = 625 := by
    rw [show (4 : ℕ) = 2 * 2 by norm_num, pow_mul, e1]
    decide
  have e3 : (5 : ZMod 3221225473) ^ 8 = 390625 := by
    rw [show (8 : ℕ) = 4 * 2 by norm_num, pow_mul, e2]
    decide
  have e4 : (5 : ZMod 3221225473) ^ 16 = 1190293394 := by
    rw [show (16 : ℕ) = 8 * 2 by norm_num, pow_mul, e3]
    decide
  have e5 : (5 : ZMod 3221225473) ^ 32 = 2658181409 := by
    rw [show (32 : ℕ) = 16 * 2 by norm_num, pow_mul, e4]
    decide
  have e6 : (5 : ZMod 3221225473) ^ 64 = 2609614933 := by
    rw [show (64 : ℕ) = 32 * 2 by norm_num, pow_mul, e5]
    decide
  have e7 : (5 : ZMod 3221225473) ^ 128 = 3182078740 := by
    rw [show (128 : ℕ) = 64 * 2 by norm_num, pow_mul, e6]
    decide
  have e8 : (5 : ZMod 3221225473) ^ 256 = 898048269 := by
    rw [show (256 : ℕ) = 128 * 2 by norm_num, pow_mul, e7]
    decide
  have e9 : (5 : ZMod 3221225473) ^ 512 = 3004042235 := by
    rw [show (512 : ℕ) = 256 * 2 by norm_num, pow_mul, e8]
    decide
  have e10 : (5 : ZMod 3221225473) ^ 1024 = 2869428413 := by
    rw [show (1024 : ℕ) = 512 * 2 by norm_num, pow_mul, e9]
    decide
  have e11 : (5 : ZMod 3221225473) ^ 2048 = 829835748 := by
    rw [show (2048 : ℕ) = 1024 * 2 by norm_num, pow_mul, e10]
    decide
  have e12 : (5 : ZMod 3221225473) ^ 4096 = 784716921 := by
    rw [show (4096 : ℕ) = 2048 * 2 by norm_num, pow_mul, e11]
    decide
  have e13 : (5 : ZMod 3221225473) ^ 8192 = 590197985 := by
    rw [show (8192 : ℕ) = 4096 * 2 by norm_num, pow_mul, e12]
    decide
  have e14 : (5 : ZMod 3221225473) ^ 16384 = 2524259225 := by
    rw [show (16384 : ℕ) = 8192 * 2 by norm_num, pow_mul, e13]
    decide
  have e15 : (5 : ZMod 3221225473) ^ 32768 = 2766529116 := by
    rw [show (32768 : ℕ) = 16384 * 2 by norm_num, pow_mul, e14]
    decide
  have e16 : (5 : ZMod 3221225473) ^ 65536 = 2468311158 := by
    rw [show (65536 : ℕ) = 32768 * 2 by norm_num, pow_mul, e15]
    decide
  have e17 : (5 : ZMod 3221225473) ^ 131072 = 20925706 := by
    rw [show (131072 : ℕ) = 65536 * 2 by norm_num, pow_mul, e16]
    decide
  have e18 : (5 : ZMod 3221225473) ^ 262144 = 1444475235 := by
    rw [show (262144 : ℕ) = 131072 * 2 by norm_num, pow_mul, e17]
    decide
  have e19 : (5 : ZMod 3221225473) ^ 524288 = 2207243129 := by
    rw [show (524288 : ℕ) = 262144 * 2 by norm_num, pow_mul, e18]
    decide
  have e20 : (5 : ZMod 3221225473) ^ 1048576 = 2838507500 := by
    rw [show (1048576 : ℕ) = 524288 * 2 by norm_num, pow_mul, e19]
    decide
  have e21 : (5 : ZMod 3221225473) ^ 2097152 = 1147292615 := by
    rw [show (2097152 : ℕ) = 1048576 * 2 by norm_num, pow_mul, e20]
    decide
  have e22 : (5 : ZMod 3221225473) ^ 4194304 = 2054098098 := by
    rw [show (4194304 : ℕ) = 2097152 * 2 by norm_num, pow_mul, e21]
    decide
  have e23 : (5 : ZMod 3221225473) ^ 8388608 = 2632611347 := by
    rw [show (8388608 : ℕ) = 4194304 * 2 by norm_num, pow_mul, e22]
    decide
  have e24 : (5 : ZMod 3221225473) ^ 16777216 = 955475771 := by
    rw [show (16777216 : ℕ) = 8388608 * 2 by norm_num, pow_mul, e23]
    decide
  have e25 : (5 : ZMod 3221225473) ^ 33554432 = 1656619387 := by
    rw [show (33554432 : ℕ) = 16777216 * 2 by norm_num, pow_mul, e24]
    decide
  have e26 : (5 : ZMod 3221225473) ^ 67108864 = 1808672996 := by
    rw [show (67108864 : ℕ) = 33554432 * 2 by norm_num, pow_mul, e25]
    decide
  have e27 : (5 : ZMod 3221225473) ^ 134217728 = 821039136 := by
    rw [show (134217728 : ℕ) = 67108864 * 2 by norm_num, pow_mul, e26]
    decide
  have e28 : (5 : ZMod 3221225473) ^ 268435456 = 814403528 := by
    rw [show (268435456 : ℕ) = 134217728 * 2 by norm_num, pow_mul, e27]
    decide
  have e29 : (5 : ZMod 3221225473) ^ 536870912 = 1610563585 := by
    rw [show (536870912 : ℕ) = 268435456 * 2 by norm_num, pow_mul, e28]
    decide
  have e30 : (5 : ZMod 3221225473) ^ 1073741824 = 1610563584 := by
    rw [show (1073741824 : ℕ) = 536870912 * 2 by norm_num, pow_mul, e29]
    decide
  have hfull : (5 : ZMod 3221225473) ^ 3221225472 = 1 := by
    rw [show (3221225472 : ℕ) = 1073741824 * 3 by norm_num, pow_mul, e30]
    decide
  have hhalf : (5 : ZMod 3221225473) ^ 1610612736 ≠ 1 := by
    rw [show (1610612736 : ℕ) = 536870912 * 3 by norm_num, pow_mul, e29]
    decide
  have hthird : (5 : ZMod 3221225473) ^ 1073741824 ≠ 1 := by
    rw [e30]
    decide
  refine lucas_primality 3221225473 5 ?_ ?_
  · rw [show (3221225473 - 1 : ℕ) = 3221225472 by norm_num]
    exact hfull
  · intro q hq hqd
    rw [show (3221225473 - 1 : ℕ) = 2 ^ 30 * 3 by norm_num] at hqd
    rcases (Nat.Prime.dvd_mul hq).mp hqd with h | h
    · rw [(Nat.prime_dvd_prime_iff_eq hq Nat.prime_two).mp (hq.dvd_of_dvd_pow h)]
      rw [show ((3221225473 - 1) / 2 : ℕ) = 1610612736 by norm_num]
      exact hhalf
    · rw [(Nat.prime_dvd_prime_iff_eq hq Nat.prime_three).mp h]
      rw [show ((3221225473 - 1) / 3 : ℕ) = 1073741824 by norm_num]
      exact hthird

/-- Evaluation of the extended GCD at the input `(Q - 1, Q)` for
`Q = 3221225473`: the Bézout coefficient returned for `Q - 1` is `-1`. -/
theorem extGcd_ntt_prime : extGcd 3221225472 3221225473 = (1, -1, 1) := by
  have h0 : extGcd 0 1 = (1, 0, 1) := extGcd_zero 1
  have h1 : extGcd 1 3221225472 = (1, 1, 0) := by
    rw [extGcd_rec 3221225472 (by decide)]
    have ht : ((3221225472 : Int).tmod 1) = 0 := by decide
    rw [ht, h0]
    norm_num
  rw [extGcd_rec 3221225473 (by decide)]
  have ht : ((3221225473 : Int).tmod 3221225472) = 1 := by decide
  have hd : ((3221225473 : Int).tdiv 3221225472) = 1 := by decide
  rw [ht, hd, h1]
  norm_num

/-- C6 (corrected, counterexample): at the representable prime modulus
`Q = 3221225473` (for which `(Q-1)^2` exceeds `i64::MAX`) and the nonzero
canonical residue `a = Q - 1`, which is its own inverse, the
multiplication `a * a.inverse()` overflows the unwidened `i64` product:
the checked model returns `none` (a panic in debug builds), and the
release-build wraparound stores `-1789569708`, not `one()`. -/
theorem claim6_counterexample :
    Nat.Prime 3221225473 ∧
      zmInverse 3221225473 3221225472 = 3221225472 ∧
      zmMulI64 3221225473 3221225472 (zmInverse 3221225473 3221225472) = none ∧
      (wrap64 (3221225472 * 3221225472)).tmod 3221225473 = -1789569708 := by
  have hinv : zmInverse 3221225473 3221225472 = 3221225472 := by
    rw [zmInverse, modInv, extGcd_ntt_prime]
    decide
  refine ⟨prime_3221225473, hinv, ?_, by decide⟩
  rw [hinv]
  decide

/-- C6 (amended): for every prime modulus whose squared largest residue
`(Q-1)^2` fits in `i64` (so the unwidened multiplication cannot
overflow) and every nonzero canonical residue `a`, `a * a.inverse()`
computes `one()`, and `a / a` computes `one()` as well. -/
theorem claim6_prime_inverse_amended (p : Nat) (a : Int) (hp : Nat.Prime p)
    (ha1 : 1 ≤ a) (ha : a < (p : Int))
    (hw : ((p : Int) - 1) * ((p : Int) - 1) ≤ i64Max) :
    zmMulI64 (p : Int) a (zmInverse (p : Int) a) = some 1 ∧
      zmDivI64 (p : Int) a a = some 1 := by
  have h2 : (2 : Nat) ≤ p := hp.two_le
  have hQ : (0 : Int) < (p : Int) := by omega
  have hex := zmPrimeInverseExact p a hp ha1 ha
  constructor
  · rw [zmMulI64_eq_exact _ _ _ hQ hw, hex.1]
  · rw [zmDivI64, zmMulI64_eq_exact _ _ _ hQ hw]
    show some (zmDiv (p : Int) a a) = some 1
    rw [hex.2]

/-- C6 witness: instantiation at the prime modulus `13` (whose squared
largest residue fits in `i64`) and the residue `4`. -/
theorem claim6_prime_inverse_amended_witness :
    Nat.Prime 13 ∧
      zmMulI64 ((13 : Nat) : Int) 4 (zmInverse ((13 : Nat) : Int) 4) = some 1 ∧
      zmDivI64 ((13 : Nat) : Int) 4 4 = some 1 :=
  ⟨by norm_num,
    (claim6_prime_inverse_amended 13 4 (by norm_num) (by decide) (by decide)
      (by decide)).1,
    (claim6_prime_inverse_amended 13 4 (by norm_num) (by decide) (by decide)
      (by decide)).2⟩

/-- C7 (corrected, counterexample): calling `power(-1)` on `ZM<7>{3}`
returns the value `one()` instead of raising a fatal error: the Rust loop
`for _ in 1..=n` is empty when `n < 0`, so no failure path is reached. -/
theorem claim7_counterexample : zmPower 7 3 (-1) = 1 := by decide

/-- C7 (amended): for a modulus `Q ≥ 2` whose squared largest residue
`(Q-1)^2` fits in `i64` (so the loop's unwidened multiplications cannot
overflow) and a canonical residue `a`, `power(n)` with `n ≥ 0` computes
the n-fold repeated product of `a`, i.e. the canonical residue of
`a ^ n` (so `power(0) = one()`), while `power(n)` with `n < 0` returns
`one()` because the loop body never executes. -/
theorem claim7_power_amended (Q a n : Int) (hQ : 1 < Q) (ha0 : 0 ≤ a)
    (ha : a < Q) (hw : (Q - 1) * (Q - 1) ≤ i64Max) :
    (n < 0 → zmPowerI64 Q a n = some 1) ∧
      (0 ≤ n → zmPowerI64 Q a n = some (a ^ n.toNat % Q)) := by
  constructor
  · intro hn
    rw [zmPowerI64, Int.toNat_of_nonpos (by omega)]
    rfl
  · intro _
    rw [zmPowerI64, zmPowAuxI64_eq_exact Q a (by omega) hw,
      zmPowAux_eq Q a hQ ha0 ha]

/-- C7 witness: instantiation at modulus `7`, residue `3`, exponents `-2`
and `2`. -/
theorem claim7_power_amended_witness :
    (1 : Int) < 7 ∧ zmPowerI64 7 3 (-2) = some 1 ∧
      zmPowerI64 7 3 2 = some ((3 : Int) ^ (2 : Int).toNat % 7) :=
  ⟨by decide,
    (claim7_power_amended 7 3 (-2) (by decide) (by decide) (by decide)
      (by decide)).1 (by decide),
    (claim7_power_amended 7 3 2 (by decide) (by decide) (by decide)
      (by decide)).2 (by decide)⟩

/-- C9 (confirmed): on `AdditiveGroupZM<N>` the multiplication operator
agrees with addition and the division operator agrees with subtraction,
under the type's own equality (which compares stored values reduced by
`rem_euclid`). -/
theorem claim9_mul_div_alias (N a b : Int) (hN : 0 < N) :
    agEqv N (agMul N a b) (agAdd N a b) ∧
      agEqv N (agDiv N a b) (agSub N a b) := by
  constructor
  · show agAdd N a b % N = agAdd N a b % N
    rfl
  · show (a - b) % N = (a - b) % N % N
    exact (Int.emod_emod (a - b) N).symm

/-- C9 witness: instantiation at modulus `5` and stored values `3`, `4`. -/
theorem claim9_mul_div_alias_witness :
    (0 : Int) < 5 ∧ agEqv 5 (agMul 5 3 4) (agAdd 5 3 4) ∧
      agEqv 5 (agDiv 5 3 4) (agSub 5 3 4) :=
  ⟨by decide, claim9_mul_div_alias 5 3 4 (by decide)⟩

/-- C10 (code bug): on `AdditiveGroupZM<5>`, executing `a += b` with the
canonical residues `3` and `4` stores `(3 - 4).rem_euclid(5) = 4`, while
`a + b` is the residue `2`; the compound assignment disagrees with the
binary addition operator even modulo `5`, because its body subtracts. -/
theorem claim10_add_assign_subtracts :
    agAddAssign 5 (agFromInt 5 3) (agFromInt 5 4) = 4 ∧
      agAdd 5 (agFromInt 5 3) (agFromInt 5 4) = 2 ∧
      ¬ agEqv 5 (agAddAssign 5 (agFromInt 5 3) (agFromInt 5 4))
          (agAdd 5 (agFromInt 5 3) (agFromInt 5 4)) := by
  refine ⟨by decide, by decide, ?_⟩
  unfold agEqv
  decide

/-- C5 (code bug): at the modulus `Q = 3037000501` with both operands the
canonical residue `Q - 1 = 3037000500`, the `i64` product of the reduced
operands is `9223372037000250000`, which exceeds `i64::MAX`; no widening
is performed, so the multiplication overflows instead of producing the
exact canonical residue, which is `1`. -/
theorem claim5_mul_overflow :
    zmMulI64 3037000501 3037000500 3037000500 = none ∧
      3037000500 * 3037000500 % 3037000501 = (1 : Int) ∧
      3037000500 * 3037000500 > i64Max := by
  refine ⟨by decide, by decide, by decide⟩

/-- C8 (corrected, counterexample): at the input `(i64::MIN, 1)` the
implemented `gcd` does not return a value: both operands are nonzero, so
it computes the Euclidean size of `i64::MIN`, whose absolute value
overflows `i64`, and the conversion fails (a panic), modelled here by the
inner `none`. -/
theorem claim8_counterexample : gcdI64F 10 i64Min 1 = some none := by decide

/-- C8 (amended): for every pair of `i64` inputs with neither operand
equal to `i64::MIN`, `gcd(a, b)` terminates without panicking and returns
the value of the recursive algorithm, within fuel bounded by twice the
Euclidean size of the second operand; and `ext_gcd(a, b)`, modelled over
unbounded integers, terminates for every input within fuel bounded by the
Euclidean size of the first operand, because that size strictly decreases
on each recursive call and is bounded below by zero. -/
theorem claim8_termination_amended (a b : Int) :
    (i64Min < a → a ≤ i64Max → i64Min < b → b ≤ i64Max →
      gcdI64F (2 * b.natAbs + 2) a b = some (some (gcdAlg a b))) ∧
    extGcdF (a.natAbs + 1) a b = some (extGcd a b) := by
  constructor
  · intro h1 h2 h3 h4
    unfold i64Min at h1 h3
    unfold i64Max at h2 h4
    have hif : (if a.natAbs < b.natAbs then 1 else 0) ≤ 1 := by
      split <;> omega
    exact gcdI64F_converges (2 * b.natAbs + 2) a b (by omega) (by omega) (by omega)
  · exact extGcdF_converges (a.natAbs + 1) a b (by omega)

/-- C8 witness: instantiation at the concrete pair `(48, 18)`. -/
theorem claim8_termination_amended_witness :
    gcdI64F (2 * (18 : Int).natAbs + 2) 48 18 = some (some (gcdAlg 48 18)) ∧
      extGcdF ((48 : Int).natAbs + 1) 48 18 = some (extGcd 48 18) :=
  ⟨(claim8_termination_amended 48 18).1 (by decide) (by decide) (by decide)
      (by decide),
    (claim8_termination_amended 48 18).2⟩

end AlgebraKit
